import Mathlib

set_option maxHeartbeats 1000000
set_option maxRecDepth 4000

/-!
Shallow embedding of the Isla interpreter (src/src/interpreter.js).

The JavaScript heap is made explicit: objects and lists are heap cells
addressed by natural numbers, and a context binding is either an immediate
value (number, string, null, undefined, function), a heap address, or a
reference wrapper corresponding to the source's value of shape
`{ref: <identifier or [objectId, attrId]>}`.  A JS `undefined` is the
binding `Binding.undefined`; a JS `null` is `Binding.null`.  Divergence of the
reference-chasing `resolve` (which has no cycle detection in the source) is
modelled with a fuel parameter: running out of fuel yields `none` /
`IslaErr.outOfFuel`, never a value.
-/

/-- A stored reference: either a bare identifier (source: a string) or a
two-part object-attribute path (source: a two-element array). -/
inductive RefName where
  | scalar (id : String)
  | path (objId attrId : String)
deriving DecidableEq, Repr

/-- A context/attribute/list slot content.  `addr` is a pointer to a heap
cell holding an object or list; `ref` is the source's `{ref: ...}` wrapper;
`fnname` stands for a JS function value (the function registry is external
to the interpreter, so functions are identified by name and interpreted by
a parameter of the evaluator). -/
inductive Binding where
  | int (n : Int)
  | str (s : String)
  | null
  | undefined
  | fnname (name : String)
  | addr (a : Nat)
  | ref (r : RefName)
deriving DecidableEq, Repr

/-- A heap cell: a compound object (attribute map plus the `_meta.type` tag,
which the source stores as the attribute `_meta` and always skips when
iterating attributes) or an IslaList (an ordered sequence of bindings). -/
inductive HeapObj where
  | obj (meta : Option String) (attrs : List (String × Binding))
  | list (items : List Binding)
deriving DecidableEq, Repr

/-- The JS memory for objects and lists: an association from addresses to
cells, with a strictly increasing allocation counter. -/
structure Heap where
  mem : List (Nat × HeapObj)
  next : Nat
deriving DecidableEq, Repr

/-- First-match association-list lookup. -/
def alget {κ α : Type} [DecidableEq κ] : List (κ × α) → κ → Option α
  | [], _ => none
  | p :: rest, x => if p.1 = x then some p.2 else alget rest x

/-- Replace-or-append association-list update (JS property write). -/
def alput {κ α : Type} [DecidableEq κ] : List (κ × α) → κ → α → List (κ × α)
  | [], x, v => [(x, v)]
  | p :: rest, x, v => if p.1 = x then (x, v) :: rest else p :: alput rest x v

/-- Replace-only association-list update (used for heap cells, which are
only ever overwritten at existing addresses). -/
def alset {κ α : Type} [DecidableEq κ] : List (κ × α) → κ → α → List (κ × α)
  | [], _, _ => []
  | p :: rest, x, v => if p.1 = x then (x, v) :: rest else p :: alset rest x v

def Heap.get (h : Heap) (a : Nat) : Option HeapObj := alget h.mem a

def Heap.set (h : Heap) (a : Nat) (o : HeapObj) : Heap := ⟨alset h.mem a o, h.next⟩

/-- Allocate a fresh cell (JS `new`), returning the new heap and address. -/
def Heap.alloc (h : Heap) (o : HeapObj) : Heap × Nat :=
  (⟨(h.next, o) :: h.mem, h.next + 1⟩, h.next)

/-- The variable store together with the type registry.  In the source both
live in the single JS object `ctx` (the registry under the key `types`);
they are separated here, which is faithful for every program whose
variables are not named `types`. -/
structure Ctx where
  vars : List (String × Binding)
  types : List (String × List (String × Binding))
deriving DecidableEq, Repr

/-- `ctx[identifier]`: a JS property read, `undefined` when absent. -/
def ctxGet (ctx : Ctx) (x : String) : Binding := (alget ctx.vars x).getD .undefined

/-- `ctx[identifier] = value`: a JS property write. -/
def ctxSet (ctx : Ctx) (x : String) (v : Binding) : Ctx :=
  ⟨alput ctx.vars x v, ctx.types⟩

/-- `ctx.types[name]`: type-constructor lookup.  A constructor is modelled
by the attribute template of the fresh object it returns. -/
def typesGet (ctx : Ctx) (name : String) : Option (List (String × Binding)) :=
  alget ctx.types name

/-- Attribute read on an object's attribute map (`undefined` when absent). -/
def attrGet (attrs : List (String × Binding)) (k : String) : Binding :=
  (alget attrs k).getD .undefined

/-- Attribute write on an object's attribute map. -/
def attrSet (attrs : List (String × Binding)) (k : String) (v : Binding) :
    List (String × Binding) :=
  alput attrs k v

/-- The environment threaded through execution: `{ctx, ret}`. -/
structure Env where
  ctx : Ctx
  ret : Binding
deriving DecidableEq, Repr

/-- Result of `evaluateValue`: the source's `{ref?, val}` shape. -/
structure EvalRes where
  ref : Option RefName
  val : Binding
deriving DecidableEq, Repr

/-- Error taxonomy.  `userError` is a source-level `throw Error(msg)`;
`hostError` is an implicit JS runtime failure (e.g. a TypeError from
calling a method of a non-object) that the interpreter itself never
constructs; `missingCase` is the dispatcher's own `throw` for an
unhandled tag; `outOfFuel` marks exhaustion of the divergence fuel. -/
inductive IslaErr where
  | userError (msg : String)
  | hostError (msg : String)
  | missingCase (msg : String)
  | outOfFuel
deriving DecidableEq, Repr

deriving instance DecidableEq for Except

/-- The heterogeneous return shape of `interpretAst`: statement nodes yield
an environment, `value` nodes yield an `EvalRes`, and leaf nodes yield a
raw payload. -/
inductive IRes where
  | env (e : Env)
  | eva (r : EvalRes)
  | val (b : Binding)
deriving DecidableEq, Repr

/-- AST nodes, one constructor per tag the interpreter dispatches on.
`value_assignment` keeps children 0 and 2 (the source ignores child 1);
`list_assignment` keeps the operation keyword (`node[0].c[0].tag`), the
item node (`node[1]`) and the assignee (`node[3]`); the tag written
`variable` in the source is the constructor `var` here. -/
inductive Ast where
  | root (c : List Ast)
  | block (c : List Ast)
  | expression (child : Ast)
  | value_assignment (assigneeNode rhs : Ast)
  | type_assignment (assigneeNode tyNode : Ast)
  | list_assignment (operation : String) (itemNode assigneeNode : Ast)
  | invocation (calleeNode argNode : Ast)
  | value (child : Ast)
  | integer (n : Int)
  | string (s : String)
  | identifier (id : String)
  | literal (child : Ast)
  | var (child : Ast)
  | scalar (child : Ast)
  | object (objIdNode attrIdNode : Ast)
  | assignee (child : Ast)

/-- The context key a stored reference is looked up under by `resolve`:
`env.ctx[thing.ref]`.  A path reference is a JS array used as a property
key, which coerces to the comma-joined string — the source's acknowledged
"won't work if assign obj-attr to var" behaviour. -/
def refLookupKey : RefName → String
  | .scalar s => s
  | .path o a => o ++ "," ++ a

/-- Rendering of the offending reference in the list-assignment error
message: a path as the two parts joined by a space, a scalar bare, and a
missing reference as JS string-concatenated `undefined`. -/
def refRender : Option RefName → String
  | some (.scalar s) => s
  | some (.path o a) => o ++ " " ++ a
  | none => "undefined"

/-- JS property read `.ref` on an arbitrary interpretation result:
only an `EvalRes` carries one. -/
def iresRef : IRes → Option RefName
  | .eva r => r.ref
  | _ => none

/-- JS property read `.val` on an arbitrary interpretation result. -/
def iresVal : IRes → Binding
  | .eva r => r.val
  | _ => .undefined

/-- The source's `nreturn(ctx, ret)`: an `undefined` return value is
replaced by `null`. -/
def nreturn (ctx : Ctx) (ret : Binding) : Env :=
  if ret = .undefined then ⟨ctx, .null⟩ else ⟨ctx, ret⟩

/-- The source's `rmRet`: clear the per-statement return slot. -/
def rmRet (env : Env) : Env := ⟨env.ctx, .null⟩

/-- Modelled from the spec: the list mutation operations live in the
external library (`Isla.Library.IslaList`, not under src/); the spec
describes them as named operations ("add"/"remove" style verbs) invoked as
`list[operationName](item)`, with `add` appending and the removal verb
(`take` in Isla surface syntax) deleting one occurrence.  An unknown
operation name is a JS TypeError (calling `undefined`), hence `none`. -/
def listOp (operation : String) (items : List Binding) (item : Binding) :
    Option (List Binding) :=
  if operation = "add" then some (items ++ [item])
  else if operation = "take" then some (items.erase item)
  else none

/-- The source's `instantiateType(typeFn, identifier)`: call the
constructor to allocate a fresh object, then overwrite its `_meta` with
`{type: identifier}`. -/
def instantiateType (h : Heap) (tmpl : List (String × Binding)) (identifier : String) :
    Heap × Nat :=
  let p := h.alloc (.obj none tmpl)
  (p.1.set p.2 (.obj (some identifier) tmpl), p.2)

/-- The Assignment Engine `assign(ctx, assigneeNode, value)`.  The scalar
case writes the context slot; the object case writes the attribute of the
heap cell the base identifier points to.  An `undefined`/`null` base is a
JS TypeError; a primitive, list or reference-wrapper base silently accepts
and discards the property write (sloppy-mode JS), modelled as a no-op. -/
def assign (h : Heap) (ctx : Ctx) (assigneeNode : Ast) (value : Binding) :
    Except IslaErr (Heap × Ctx) :=
  match assigneeNode with
  | .assignee (.scalar (.identifier id)) => .ok (h, ctxSet ctx id value)
  | .assignee (.object (.identifier objId) (.identifier slotId)) =>
    match ctxGet ctx objId with
    | .undefined => .error (.hostError "cannot set attribute of undefined")
    | .null => .error (.hostError "cannot set attribute of null")
    | .addr a =>
      match h.get a with
      | some (.obj m attrs) => .ok (h.set a (.obj m (attrSet attrs slotId value)), ctx)
      | _ => .ok (h, ctx)
    | _ => .ok (h, ctx)
  | _ => .error (.hostError "malformed assignee node")

mutual

/-- The deep-dereference operator `resolve(thing, env)`, with fuel.
A reference is chased through the context; an object has every attribute
except `_meta` resolved in place (the heap cell is mutated, the same
address is returned); a list is copied: a new list of the resolved items is
built and the original is left untouched.  (The source allocates the empty
result list before the item loop and fills it by `add`; since the fresh
list is unreachable until returned, allocating it after the items are
resolved is observationally the same and is what is done here.)  Anything
else is returned unchanged. -/
def resolveB : Nat → Heap → Ctx → Binding → Option (Heap × Binding)
  | 0, _, _, _ => none
  | fuel + 1, h, ctx, b =>
    match b with
    | .ref r => resolveB fuel h ctx (ctxGet ctx (refLookupKey r))
    | .addr a =>
      match h.get a with
      | some (.list items) =>
        match resolveItems fuel h ctx items with
        | none => none
        | some (h2, out) =>
          let p := h2.alloc (.list out)
          some (p.1, .addr p.2)
      | some (.obj _ attrs) =>
        match resolveAttrs fuel h ctx a (attrs.map Prod.fst) with
        | none => none
        | some h2 => some (h2, .addr a)
      | none => some (h, b)
    | _ => some (h, b)

/-- The item loop of `resolve` on a list: resolve every item left to
right, threading the heap. -/
def resolveItems : Nat → Heap → Ctx → List Binding → Option (Heap × List Binding)
  | 0, _, _, _ => none
  | _ + 1, h, _, [] => some (h, [])
  | fuel + 1, h, ctx, b :: bs =>
    match resolveB fuel h ctx b with
    | none => none
    | some (h1, b1) =>
      match resolveItems fuel h1 ctx bs with
      | none => none
      | some (h2, bs1) => some (h2, b1 :: bs1)

/-- The attribute loop of `resolve` on an object: for each key of the
snapshot taken at loop entry, read the current attribute value from the
cell, resolve it, and write it back in place. -/
def resolveAttrs : Nat → Heap → Ctx → Nat → List String → Option Heap
  | 0, _, _, _, _ => none
  | _ + 1, h, _, _, [] => some h
  | fuel + 1, h, ctx, a, k :: ks =>
    match h.get a with
    | some (.obj _ attrs) =>
      match resolveB fuel h ctx (attrGet attrs k) with
      | none => none
      | some (h1, v1) =>
        match h1.get a with
        | some (.obj meta1 attrs1) =>
          resolveAttrs fuel (h1.set a (.obj meta1 (attrSet attrs1 k v1))) ctx a ks
        | _ => none
    | _ => none

end

mutual

/-- The AST Evaluator `interpretAst`, dispatching on the node tag.
`F` interprets the external function values named by `Binding.fnname`
(built-ins are modelled as pure: they receive the environment and the
argument value and return a value).  The `root` case always uses the
supplied environment (the initial-environment factory is external).
Tags the source's multimethod has no case for fall to the dispatcher's
default, which throws. -/
def interpretAst (F : String → Env → Binding → Binding) (fuel : Nat) :
    Ast → Heap → Env → Except IslaErr (Heap × IRes)
  | .root c, h, env => runSequence F fuel c h env
  | .block c, h, env => runSequence F fuel c h env
  | .expression child, h, env => interpretAst F fuel child h env
  | .value_assignment assigneeNode rhs, h, env => do
    let r ← interpretAst F fuel rhs h env
    let value := match iresRef r.2 with
      | none => iresVal r.2
      | some rn => Binding.ref rn
    let w ← assign r.1 env.ctx assigneeNode value
    .ok (w.1, .env (nreturn w.2 .undefined))
  | .type_assignment assigneeNode tyNode, h, env => do
    let r ← interpretAst F fuel tyNode h env
    match r.2 with
    | .val (.str typeIdentifier) =>
      match (typesGet env.ctx typeIdentifier).orElse (fun _ => typesGet env.ctx "generic") with
      | none => .error (.hostError "typeFn is not a function")
      | some tmpl =>
        let p := instantiateType r.1 tmpl typeIdentifier
        let w ← assign p.1 env.ctx assigneeNode (.addr p.2)
        .ok (w.1, .env (nreturn w.2 .undefined))
    | _ => .error (.hostError "type identifier is not a string")
  | .list_assignment operation itemNode assigneeNode, h, env =>
    match assigneeNode with
    | .assignee target => do
      let c ← evaluateValue F fuel target h env
      if c.2.val = .undefined then
        .error (.userError ("I do not know of a list called " ++ refRender c.2.ref ++ "."))
      else do
        let ir ← interpretAst F fuel itemNode c.1 env
        let item := match iresRef ir.2 with
          | none => iresVal ir.2
          | some rn => Binding.ref rn
        match c.2.val with
        | .addr a =>
          match ir.1.get a with
          | some (.list items) =>
            match listOp operation items item with
            | some items2 => do
              let w ← assign (ir.1.set a (.list items2)) env.ctx assigneeNode c.2.val
              .ok (w.1, .env (nreturn w.2 .undefined))
            | none => .error (.hostError "list operation is not a function")
          | _ => .error (.hostError "list operation on a non-list object")
        | _ => .error (.hostError "list operation on a non-list value")
    | _ => .error (.hostError "malformed assignee node")
  | .invocation calleeNode argNode, h, env => do
    let cr ← interpretAst F fuel calleeNode h env
    match cr.2 with
    | .val (.str name) =>
      match resolveB fuel cr.1 env.ctx (.ref (.scalar name)) with
      | none => .error .outOfFuel
      | some (h2, fnv) => do
        let ar ← interpretAst F fuel argNode h2 env
        match fnv with
        | .fnname f => .ok (ar.1, .env (nreturn env.ctx (F f env (iresVal ar.2))))
        | _ => .error (.hostError "fn is not a function")
    | _ => .error (.hostError "callee did not evaluate to an identifier")
  | .value child, h, env => do
    let r ← evaluateValue F fuel child h env
    .ok (r.1, .eva r.2)
  | .integer n, h, _ => .ok (h, .val (.int n))
  | .string s, h, _ => .ok (h, .val (.str s))
  | .identifier id, h, _ => .ok (h, .val (.str id))
  | .literal _, _, _ => .error (.missingCase "You have forgotten a tag type.")
  | .var _, _, _ => .error (.missingCase "You have forgotten a tag type.")
  | .scalar _, _, _ => .error (.missingCase "You have forgotten a tag type.")
  | .object _ _, _, _ => .error (.missingCase "You have forgotten a tag type.")
  | .assignee _, _, _ => .error (.missingCase "You have forgotten a tag type.")

/-- The Value Resolution entry `evaluateValue(node, env)`, computing the
`{ref?, val}` pair for a read. -/
def evaluateValue (F : String → Env → Binding → Binding) (fuel : Nat) :
    Ast → Heap → Env → Except IslaErr (Heap × EvalRes)
  | .literal child, h, env => do
    let r ← interpretAst F fuel child h env
    match r.2 with
    | .val b => .ok (r.1, ⟨none, b⟩)
    | _ => .error (.hostError "literal child is not a leaf value")
  | .var child, h, env => evaluateValue F fuel child h env
  | .scalar child, h, env => do
    let r ← interpretAst F fuel child h env
    match r.2 with
    | .val (.str id) => .ok (r.1, ⟨some (.scalar id), ctxGet env.ctx id⟩)
    | _ => .error (.hostError "scalar child is not an identifier")
  | .object objIdNode attrIdNode, h, env =>
    match objIdNode, attrIdNode with
    | .identifier objId, .identifier attrId =>
      let val : Binding := match ctxGet env.ctx objId with
        | .addr a =>
          match h.get a with
          | some (.obj _ attrs) => attrGet attrs attrId
          | _ => .undefined
        | _ => .undefined
      .ok (h, ⟨some (.path objId attrId), val⟩)
    | _, _ => .error (.hostError "object node children must be identifiers")
  | _, _, _ => .error (.hostError "no evaluateValue method for this node")

/-- The Sequencer `runSequence(nodes, env)`: an empty sequence returns the
environment unchanged; otherwise the head is interpreted against the
environment with `ret` cleared, and the tail continues from the result.
(A statement that does not produce an environment would make the source
thread a malformed object; the parser never produces such sequences, and
the model reports it.) -/
def runSequence (F : String → Env → Binding → Binding) (fuel : Nat) :
    List Ast → Heap → Env → Except IslaErr (Heap × IRes)
  | [], h, env => .ok (h, .env env)
  | n :: rest, h, env => do
    let r ← interpretAst F fuel n h (rmRet env)
    match r.2 with
    | .env e => runSequence F fuel rest r.1 e
    | _ => .error (.hostError "statement did not produce an environment")

end

/-! ## Well-formedness predicates and heap-evolution relations -/

/-- Every address a binding mentions is below the allocation counter `n`. -/
def bBelow (n : Nat) : Binding → Bool
  | .addr a => decide (a < n)
  | _ => true

/-- Every address a heap cell mentions is below `n`. -/
def objBelow (n : Nat) : HeapObj → Bool
  | .obj _ attrs => attrs.all (fun p => bBelow n p.2)
  | .list items => items.all (bBelow n)

/-- Heap well-formedness: every allocated address, and every address stored
inside a cell, is below the allocation counter. -/
def heapOk (h : Heap) : Bool :=
  h.mem.all (fun p => decide (p.1 < h.next) && objBelow h.next p.2)

/-- Context well-formedness relative to a heap counter. -/
def ctxOk (n : Nat) (ctx : Ctx) : Bool :=
  ctx.vars.all (fun p => bBelow n p.2)

/-- How one `resolve` step may evolve the heap: the counter grows, list
cells are never modified, object cells stay object cells, and absent
addresses below the counter stay absent. -/
def HFrame (h h' : Heap) : Prop :=
  h.next ≤ h'.next ∧
  (∀ a l, h.get a = some (.list l) → h'.get a = some (.list l)) ∧
  (∀ a m attrs, h.get a = some (.obj m attrs) → ∃ m' attrs', h'.get a = some (.obj m' attrs')) ∧
  (∀ a, a < h.next → h.get a = none → h'.get a = none)

mutual

/-- Equality of two resolved values up to re-copying of lists: identical
bindings are equal, and two distinct list addresses are equal when their
items are pointwise so.  This relation is stronger than (hence implies)
structural deep equality of the two values. -/
def eqUpTo : Nat → Heap → Binding → Binding → Bool
  | 0, _, _, _ => false
  | k + 1, h, b1, b2 =>
    if b1 = b2 then true
    else match b1, b2 with
      | .addr a1, .addr a2 =>
        match h.get a1, h.get a2 with
        | some (.list l1), some (.list l2) => eqUpToList k h l1 l2
        | _, _ => false
      | _, _ => false

/-- Pointwise `eqUpTo` on item lists. -/
def eqUpToList : Nat → Heap → List Binding → List Binding → Bool
  | 0, _, _, _ => false
  | _ + 1, _, [], [] => true
  | k + 1, h, x :: xs, y :: ys => eqUpTo k h x y && eqUpToList k h xs ys
  | _ + 1, _, _, _ => false

end

/-- A stored reference whose target slot itself stores a reference
(the configuration the spec's storage invariant rules out). -/
def refTargetIsRef (ctx : Ctx) : Binding → Bool
  | .ref r =>
    match ctxGet ctx (refLookupKey r) with
    | .ref _ => true
    | _ => false
  | _ => false

/-- Does any variable of the context hold a reference that points directly
at a slot holding another reference? -/
def ctxHasRefRef (ctx : Ctx) : Bool :=
  ctx.vars.any (fun p => refTargetIsRef ctx p.2)

/-! ## Concrete fixtures used by witnesses and counterexamples -/

/-- A function registry whose every callable returns JS `undefined`. -/
def F0 : String → Env → Binding → Binding := fun _ _ _ => .undefined

/-- The empty heap. -/
def hE : Heap := ⟨[], 0⟩

/-- An environment with the given variables, no types, and a null return
slot. -/
def envOf (vs : List (String × Binding)) : Env := ⟨⟨vs, []⟩, .null⟩

/-- The program `x := 5` then `y := x`. -/
def progXY : Ast := .root [
  .expression (.value_assignment (.assignee (.scalar (.identifier "x")))
    (.value (.literal (.integer 5)))),
  .expression (.value_assignment (.assignee (.scalar (.identifier "y")))
    (.value (.var (.scalar (.identifier "x")))))]

/-- The program `y := x` then `z := y` (run from a context binding `x`). -/
def progYZ : Ast := .root [
  .expression (.value_assignment (.assignee (.scalar (.identifier "y")))
    (.value (.var (.scalar (.identifier "x"))))),
  .expression (.value_assignment (.assignee (.scalar (.identifier "z")))
    (.value (.var (.scalar (.identifier "y")))))]

/-- A heap with one list cell `[7, {ref: x}]` at address 0. -/
def h8 : Heap := ⟨[(0, .list [.int 7, .ref (.scalar "x")])], 1⟩

/-- A context binding `x` to 2. -/
def cx8 : Ctx := ⟨[("x", .int 2)], []⟩

/-! ## Association-list and heap lemmas -/

theorem alget_alput_self {κ α : Type} [DecidableEq κ] (m : List (κ × α)) (k : κ) (v : α) :
    alget (alput m k v) k = some v := by
  induction m with
  | nil => simp [alput, alget]
  | cons p m ih =>
    by_cases hp : p.1 = k
    · simp [alput, hp, alget]
    · simp [alput, hp, alget, ih]

theorem alget_alput_ne {κ α : Type} [DecidableEq κ] (m : List (κ × α)) (k x : κ) (v : α)
    (hx : k ≠ x) : alget (alput m k v) x = alget m x := by
  induction m with
  | nil => simp [alput, alget, hx]
  | cons p m ih =>
    by_cases hp : p.1 = k
    · subst hp
      simp [alput, alget, hx]
    · simp [alput, hp, alget, ih]

theorem alget_alset_self {κ α : Type} [DecidableEq κ] (m : List (κ × α)) (k : κ) (v w : α)
    (hw : alget m k = some w) : alget (alset m k v) k = some v := by
  induction m with
  | nil => simp [alget] at hw
  | cons p m ih =>
    by_cases hp : p.1 = k
    · simp [alset, hp, alget]
    · simp [alget, hp] at hw
      simp [alset, hp, alget, ih hw]

theorem alget_alset_ne {κ α : Type} [DecidableEq κ] (m : List (κ × α)) (k x : κ) (v : α)
    (hx : k ≠ x) : alget (alset m k v) x = alget m x := by
  induction m with
  | nil => simp [alset]
  | cons p m ih =>
    by_cases hp : p.1 = k
    · subst hp
      simp [alset, alget, hx]
    · simp [alset, hp, alget, ih]

theorem alget_alset_none {κ α : Type} [DecidableEq κ] (m : List (κ × α)) (k : κ) (v : α)
    (hw : alget m k = none) : alset m k v = m := by
  induction m with
  | nil => simp [alset]
  | cons p m ih =>
    by_cases hp : p.1 = k
    · simp [alget, hp] at hw
    · simp [alget, hp] at hw
      simp [alset, hp, ih hw]

theorem alget_mem {κ α : Type} [DecidableEq κ] (m : List (κ × α)) (x : κ) (v : α)
    (hv : alget m x = some v) : (x, v) ∈ m := by
  induction m with
  | nil => simp [alget] at hv
  | cons p m ih =>
    obtain ⟨k, w⟩ := p
    by_cases hp : k = x
    · simp [alget, hp] at hv
      subst hp
      subst hv
      exact List.mem_cons_self _ _
    · simp [alget, hp] at hv
      exact List.mem_cons_of_mem _ (ih hv)

theorem all_alput {κ α : Type} [DecidableEq κ] (m : List (κ × α)) (k : κ) (v : α)
    (P : κ × α → Bool) (hm : m.all P = true) (hv : P (k, v) = true) :
    (alput m k v).all P = true := by
  induction m with
  | nil => simp [alput, hv]
  | cons p m ih =>
    simp only [List.all_cons, Bool.and_eq_true] at hm
    by_cases hp : p.1 = k
    · simp [alput, hp, hv, hm.2]
    · simp [alput, hp, hm.1, ih hm.2]

theorem all_alset {κ α : Type} [DecidableEq κ] (m : List (κ × α)) (k : κ) (v : α)
    (P : κ × α → Bool) (hm : m.all P = true) (hv : P (k, v) = true) :
    (alset m k v).all P = true := by
  induction m with
  | nil => simp [alset]
  | cons p m ih =>
    simp only [List.all_cons, Bool.and_eq_true] at hm
    by_cases hp : p.1 = k
    · simp [alset, hp, hv, hm.2]
    · simp [alset, hp, hm.1, ih hm.2]

theorem ctxGet_ctxSet_self (ctx : Ctx) (x : String) (v : Binding) :
    ctxGet (ctxSet ctx x v) x = v := by
  simp [ctxGet, ctxSet, alget_alput_self]

theorem ctxGet_ctxSet_ne (ctx : Ctx) (x y : String) (v : Binding) (hxy : x ≠ y) :
    ctxGet (ctxSet ctx x v) y = ctxGet ctx y := by
  simp [ctxGet, ctxSet, alget_alput_ne _ _ _ _ hxy]

theorem Heap.get_set_ne (h : Heap) (a x : Nat) (o : HeapObj) (hx : a ≠ x) :
    (h.set a o).get x = h.get x := by
  simp [Heap.get, Heap.set, alget_alset_ne _ _ _ _ hx]

theorem Heap.get_set_self (h : Heap) (a : Nat) (o w : HeapObj) (hw : h.get a = some w) :
    (h.set a o).get a = some o := by
  simp [Heap.get, Heap.set] at hw ⊢
  exact alget_alset_self _ _ _ _ hw

theorem Heap.get_set_absent (h : Heap) (a : Nat) (o : HeapObj) (hw : h.get a = none) :
    h.set a o = h := by
  simp only [Heap.get] at hw
  unfold Heap.set
  rw [alget_alset_none _ _ _ hw]

theorem Heap.get_alloc (h : Heap) (o : HeapObj) (x : Nat) :
    ((h.alloc o).1).get x = if h.next = x then some o else h.get x := rfl

theorem Heap.set_next (h : Heap) (a : Nat) (o : HeapObj) : (h.set a o).next = h.next := rfl

theorem Heap.alloc_next (h : Heap) (o : HeapObj) : ((h.alloc o).1).next = h.next + 1 := rfl

theorem Heap.alloc_snd (h : Heap) (o : HeapObj) : (h.alloc o).2 = h.next := rfl

/-! ## Well-formedness lemmas -/

theorem bBelow_mono (n n' : Nat) (b : Binding) (hn : n ≤ n') (hb : bBelow n b = true) :
    bBelow n' b = true := by
  cases b <;> simp_all [bBelow] <;> omega

theorem objBelow_mono (n n' : Nat) (o : HeapObj) (hn : n ≤ n') (ho : objBelow n o = true) :
    objBelow n' o = true := by
  cases o with
  | obj m attrs =>
    simp only [objBelow, List.all_eq_true] at ho ⊢
    exact fun p hp => bBelow_mono n n' _ hn (ho p hp)
  | list items =>
    simp only [objBelow, List.all_eq_true] at ho ⊢
    exact fun b hb => bBelow_mono n n' _ hn (ho b hb)

theorem ctxOk_mono (n n' : Nat) (ctx : Ctx) (hn : n ≤ n') (hc : ctxOk n ctx = true) :
    ctxOk n' ctx = true := by
  simp only [ctxOk, List.all_eq_true] at hc ⊢
  exact fun p hp => bBelow_mono n n' _ hn (hc p hp)

theorem heapOk_get (h : Heap) (a : Nat) (o : HeapObj) (hOk : heapOk h = true)
    (ha : h.get a = some o) : a < h.next ∧ objBelow h.next o = true := by
  simp only [heapOk, List.all_eq_true] at hOk
  have := hOk (a, o) (alget_mem _ _ _ ha)
  simp only [Bool.and_eq_true, decide_eq_true_eq] at this
  exact this

theorem heapOk_get_none (h : Heap) (a : Nat) (hOk : heapOk h = true) (ha : h.next ≤ a) :
    h.get a = none := by
  cases hg : h.get a with
  | none => rfl
  | some o =>
    have := (heapOk_get h a o hOk hg).1
    omega

theorem ctxGet_below (n : Nat) (ctx : Ctx) (x : String) (hc : ctxOk n ctx = true) :
    bBelow n (ctxGet ctx x) = true := by
  simp only [ctxOk, List.all_eq_true] at hc
  cases hg : alget ctx.vars x with
  | none => simp [ctxGet, hg, bBelow]
  | some b =>
    have := hc (x, b) (alget_mem _ _ _ hg)
    simpa [ctxGet, hg] using this

theorem attrGet_below (n : Nat) (attrs : List (String × Binding)) (k : String)
    (ha : attrs.all (fun p => bBelow n p.2) = true) : bBelow n (attrGet attrs k) = true := by
  simp only [List.all_eq_true] at ha
  cases hg : alget attrs k with
  | none => simp [attrGet, hg, bBelow]
  | some b =>
    have := ha (k, b) (alget_mem _ _ _ hg)
    simpa [attrGet, hg] using this

theorem itemsBelow_get (n : Nat) (items : List Binding) (b : Binding)
    (ha : items.all (bBelow n) = true) (hb : b ∈ items) : bBelow n b = true := by
  simp only [List.all_eq_true] at ha
  exact ha b hb

theorem heapOk_alloc (h : Heap) (o : HeapObj) (hOk : heapOk h = true)
    (ho : objBelow (h.next + 1) o = true) : heapOk (h.alloc o).1 = true := by
  simp only [heapOk, Heap.alloc, List.all_cons, Bool.and_eq_true, List.all_eq_true] at hOk ⊢
  constructor
  · simp [ho]
  · intro p hp
    have hOkp := hOk p hp
    simp only [Bool.and_eq_true, decide_eq_true_eq] at hOkp ⊢
    exact ⟨by omega, objBelow_mono _ _ _ (by omega) hOkp.2⟩

theorem heapOk_set (h : Heap) (a : Nat) (o : HeapObj) (hOk : heapOk h = true)
    (ha : a < h.next) (ho : objBelow h.next o = true) : heapOk (h.set a o) = true := by
  simp only [heapOk, Heap.set] at hOk ⊢
  exact all_alset _ _ _ _ hOk (by simp [ha, ho])

/-! ## Auxiliary facts about the Assignment Engine -/

/-- The Assignment Engine never raises a user-facing `Error(...)`: its only
failures are host-level TypeErrors. -/
theorem assign_no_user (h : Heap) (ctx : Ctx) (node : Ast) (v : Binding) (msg : String) :
    assign h ctx node v ≠ .error (.userError msg) := by
  unfold assign
  (repeat' split) <;> simp

/-- Unfolding lemma: one `resolve` step on a stored reference is a context
lookup. -/
theorem resolveB_ref_step (f : Nat) (h : Heap) (ctx : Ctx) (r : RefName) :
    resolveB (f + 1) h ctx (.ref r) = resolveB f h ctx (ctxGet ctx (refLookupKey r)) := rfl

/-! ## Claim C1 -/

/-- C1: in any context where `x` is bound to a reference, executing the
value assignment `y := x` stores the alias `{ref: "x"}` under `y` (leaving
the heap untouched and returning a null `ret`), and from then on — in
every heap, i.e. after arbitrary mutation of the object or list that `x`
ultimately resolves to — reading `y` through `resolve` takes exactly the
same steps as reading `x`, and after two chase steps continues from `x`'s
stored reference target; so any mutation of the referent is observable
through `y` until one of the slots is overwritten. -/
theorem c1_alias_through_value_assignment
    (F : String → Env → Binding → Binding) (fuel : Nat) (h : Heap) (env : Env)
    (x y : String) (r : RefName)
    (hxr : ctxGet env.ctx x = .ref r) (hxy : y ≠ x) :
    interpretAst F fuel (.value_assignment (.assignee (.scalar (.identifier y)))
        (.value (.var (.scalar (.identifier x))))) h env
      = .ok (h, .env ⟨ctxSet env.ctx y (.ref (.scalar x)), .null⟩)
    ∧ (∀ (h' : Heap) (f : Nat),
        resolveB (f + 1) h' (ctxSet env.ctx y (.ref (.scalar x)))
            (ctxGet (ctxSet env.ctx y (.ref (.scalar x))) y)
          = resolveB f h' (ctxSet env.ctx y (.ref (.scalar x)))
            (ctxGet (ctxSet env.ctx y (.ref (.scalar x))) x))
    ∧ (∀ (h' : Heap) (f : Nat),
        resolveB (f + 2) h' (ctxSet env.ctx y (.ref (.scalar x)))
            (ctxGet (ctxSet env.ctx y (.ref (.scalar x))) y)
          = resolveB f h' (ctxSet env.ctx y (.ref (.scalar x)))
            (ctxGet (ctxSet env.ctx y (.ref (.scalar x))) (refLookupKey r))) := by
  refine ⟨?_, ?_, ?_⟩
  · simp only [interpretAst, evaluateValue, Bind.bind, Except.bind, iresRef, iresVal,
      assign, nreturn]
    simp
  · intro h' f
    rw [ctxGet_ctxSet_self]
    rfl
  · intro h' f
    rw [ctxGet_ctxSet_self]
    rw [show (f + 2) = (f + 1) + 1 from rfl, resolveB_ref_step]
    rw [show refLookupKey (RefName.scalar x) = x from rfl]
    rw [ctxGet_ctxSet_ne env.ctx y x _ hxy, hxr]
    rw [resolveB_ref_step]

/-- Witness for C1 at a concrete context where `x` aliases a list slot. -/
theorem c1_alias_witness :
    interpretAst F0 3 (.value_assignment (.assignee (.scalar (.identifier "y")))
        (.value (.var (.scalar (.identifier "x"))))) hE (envOf [("x", .ref (.scalar "l"))])
      = .ok (hE, .env ⟨⟨[("x", .ref (.scalar "l")), ("y", .ref (.scalar "x"))], []⟩, .null⟩) :=
  (c1_alias_through_value_assignment F0 3 hE (envOf [("x", .ref (.scalar "l"))])
    "x" "y" (.scalar "l") (by decide) (by decide)).1

/-! ## Claim C2 -/

/-- C2: a value assignment evaluates its right-hand node first; if the
result carries an addressable reference the binding written into the
context slot is the reference wrapper (never the materialized value), and
otherwise the value itself; the statement returns the updated context and
a null `ret`. -/
theorem c2_value_assignment_stores_ref_or_value
    (F : String → Env → Binding → Binding) (fuel : Nat) (h h1 : Heap) (env : Env)
    (x : String) (rhs : Ast) (res : IRes)
    (hR : interpretAst F fuel rhs h env = .ok (h1, res)) :
    interpretAst F fuel (.value_assignment (.assignee (.scalar (.identifier x))) rhs) h env
      = .ok (h1, .env ⟨ctxSet env.ctx x
          (match iresRef res with | none => iresVal res | some rn => Binding.ref rn),
          .null⟩) := by
  simp only [interpretAst, hR, assign, nreturn, Bind.bind, Except.bind]
  cases hr : iresRef res <;> simp [hr, nreturn]

/-- Witness for C2: with the right-hand side `x` (a reference-carrying
read), the stored binding is the wrapper `{ref: "x"}`. -/
theorem c2_witness :
    interpretAst F0 3 (.value_assignment (.assignee (.scalar (.identifier "y")))
        (.value (.var (.scalar (.identifier "x"))))) hE (envOf [("x", .int 5)])
      = .ok (hE, .env ⟨⟨[("x", .int 5), ("y", .ref (.scalar "x"))], []⟩, .null⟩) :=
  c2_value_assignment_stores_ref_or_value F0 3 hE hE (envOf [("x", .int 5)]) "y"
    (.value (.var (.scalar (.identifier "x")))) (.eva ⟨some (.scalar "x"), .int 5⟩)
    (by decide)

/-! ## Claim C3 -/

/-- C3 counterexample: starting from the reference-free context
`x := 5`, the two value assignments `y := x; z := y` produce a context in
which the stored reference of `z` points directly at the slot `y`, whose
stored binding is itself a reference — refuting the claimed storage
invariant on contexts reachable by the evaluator's own operations. -/
theorem c3_counterexample :
    interpretAst F0 5 progYZ hE (envOf [("x", .int 5)])
      = .ok (hE, .env (envOf
          [("x", .int 5), ("y", .ref (.scalar "x")), ("z", .ref (.scalar "y"))]))
    ∧ ctxHasRefRef ⟨[("x", .int 5)], []⟩ = false
    ∧ ctxHasRefRef
        ⟨[("x", .int 5), ("y", .ref (.scalar "x")), ("z", .ref (.scalar "y"))], []⟩ = true :=
  ⟨by decide, by decide, by decide⟩

/-- C3 (amended): stored reference chains of length greater than one do
occur (value-assigning a variable stores a reference to its slot whatever
that slot holds), and reference chains are chased by `resolve` one context
lookup per step at read time — as the chain `z → y → x` reached above
resolves to the scalar `5`. -/
theorem c3_ref_chains_form_and_resolve_chases :
    (∀ (f : Nat) (h : Heap) (ctx : Ctx) (r : RefName),
       resolveB (f + 1) h ctx (.ref r) = resolveB f h ctx (ctxGet ctx (refLookupKey r)))
    ∧ resolveB 4 hE
        ⟨[("x", .int 5), ("y", .ref (.scalar "x")), ("z", .ref (.scalar "y"))], []⟩
        (.ref (.scalar "z")) = some (hE, .int 5) := by
  exact ⟨fun f h ctx r => rfl, by decide⟩

/-! ## Claim C4 -/

/-- C4 counterexample: the Sequencer on the empty statement list returns
the input environment identically, so an input with a non-null `ret`
comes back with that same non-null `ret`, refuting the claimed
`ret = null`. -/
theorem c4_counterexample :
    runSequence F0 1 [] hE ⟨⟨[], []⟩, .int 7⟩ = .ok (hE, .env ⟨⟨[], []⟩, .int 7⟩)
    ∧ Binding.int 7 ≠ Binding.null :=
  ⟨rfl, by decide⟩

/-- C4 (amended): for every environment, running the Sequencer on an empty
list of statement nodes returns the very same heap and the very same
environment — the same context and the unchanged `ret` (hence `ret = null`
exactly when the input `ret` was already null). -/
theorem c4_empty_sequence_returns_env_unchanged
    (F : String → Env → Binding → Binding) (fuel : Nat) (h : Heap) (env : Env) :
    runSequence F fuel [] h env = .ok (h, .env env) := rfl

/-! ## Claim C5 -/

/-- C5 counterexample: after `x := 5; y := x`, the binding stored for `y`
is the reference `{ref: "x"}`, not the scalar value — refuting the claim
that the scalar is stored directly. -/
theorem c5_counterexample :
    interpretAst F0 5 progXY hE (envOf [])
      = .ok (hE, .env (envOf [("x", .int 5), ("y", .ref (.scalar "x"))]))
    ∧ Binding.ref (.scalar "x") ≠ Binding.int 5 :=
  ⟨by decide, by decide⟩

/-- C5 (amended): after `x := 5; y := x`, a scalar read of `x` yields `5`;
the binding stored for `y` is the reference `{ref: "x"}` (aliasing, not a
scalar copy), and reading `y` through `resolve` also yields `5`. -/
theorem c5_end_to_end_amended :
    interpretAst F0 5 progXY hE (envOf [])
      = .ok (hE, .env (envOf [("x", .int 5), ("y", .ref (.scalar "x"))]))
    ∧ ctxGet ⟨[("x", .int 5), ("y", .ref (.scalar "x"))], []⟩ "x" = .int 5
    ∧ ctxGet ⟨[("x", .int 5), ("y", .ref (.scalar "x"))], []⟩ "y" = .ref (.scalar "x")
    ∧ resolveB 3 hE ⟨[("x", .int 5), ("y", .ref (.scalar "x"))], []⟩
        (ctxGet ⟨[("x", .int 5), ("y", .ref (.scalar "x"))], []⟩ "y") = some (hE, .int 5) :=
  ⟨by decide, by decide, by decide, by decide⟩

/-! ## Claim C6 -/

/-- C6 counterexample: a list assignment whose target `foo` is bound to
the scalar `5` — hence does not resolve to an existing list binding —
does not raise the described error naming `foo`: it fails with a
host-level TypeError (calling a method of a non-list), whose error value
is not a `userError` at all. -/
theorem c6_counterexample :
    interpretAst F0 3 (.list_assignment "add" (.value (.literal (.integer 1)))
        (.assignee (.scalar (.identifier "foo")))) hE (envOf [("foo", .int 5)])
      = .error (.hostError "list operation on a non-list value")
    ∧ ∀ msg, (IslaErr.hostError "list operation on a non-list value") ≠ .userError msg :=
  ⟨by decide, fun _ h => nomatch h⟩

/-- C6 (amended): the "I do not know of a list called ..." error is raised
if and only if the assignee's stored value reads as `undefined`; its
message renders a two-part object-attribute reference as the parts joined
by a space and a scalar reference as the bare identifier, and the error is
thrown before any write, leaving context and heap untouched.  A target
bound to a non-undefined non-list value passes the check and fails later
at the host level: no user-facing `Error` is raised in that case. -/
theorem c6_no_such_list_error_iff_undefined
    (F : String → Env → Binding → Binding) (fuel : Nat) (h h1 : Heap) (env : Env)
    (op : String) (itemNode target : Ast) (cur : EvalRes)
    (hEv : evaluateValue F fuel target h env = .ok (h1, cur)) :
    (cur.val = .undefined →
       interpretAst F fuel (.list_assignment op itemNode (.assignee target)) h env
         = .error (.userError ("I do not know of a list called " ++ refRender cur.ref ++ ".")))
    ∧ (cur.val ≠ .undefined →
       ∀ (h2 : Heap) (res : IRes),
         interpretAst F fuel itemNode h1 env = .ok (h2, res) →
         ∀ msg, interpretAst F fuel (.list_assignment op itemNode (.assignee target)) h env
             ≠ .error (.userError msg)) := by
  constructor
  · intro hu
    simp only [interpretAst, hEv, Bind.bind, Except.bind, hu]
    simp
  · intro hnu h2 res hItem msg
    simp only [interpretAst, hEv, Bind.bind, Except.bind, hItem, if_neg hnu]
    cases cv : cur.val with
    | addr a =>
      simp only [cv]
      cases hg : h2.get a with
      | none => simp [hg]
      | some cell =>
        cases cell with
        | obj m attrs => simp [hg]
        | list items =>
          simp only [hg]
          cases lo : listOp op items
              (match iresRef res with | none => iresVal res | some rn => Binding.ref rn) with
          | none => simp [lo]
          | some items2 =>
            simp only [lo]
            cases ha : assign (h2.set a (.list items2)) env.ctx (.assignee target) cur.val with
            | ok w => simp [cv ▸ ha]
            | error e =>
              simp only [cv ▸ ha]
              intro hc
              injection hc with hc
              exact assign_no_user _ _ _ _ msg (hc ▸ cv ▸ ha)
    | int n => simp [cv]
    | str s => simp [cv]
    | null => simp [cv]
    | undefined => exact absurd cv hnu
    | fnname n => simp [cv]
    | ref r => simp [cv]

/-- Witness for C6 at the unbound target `foo`: the exact error message. -/
theorem c6_witness :
    interpretAst F0 3 (.list_assignment "add" (.value (.literal (.integer 1)))
        (.assignee (.scalar (.identifier "foo")))) hE (envOf [])
      = .error (.userError "I do not know of a list called foo.") :=
  (c6_no_such_list_error_iff_undefined F0 3 hE hE (envOf []) "add"
    (.value (.literal (.integer 1))) (.scalar (.identifier "foo"))
    ⟨some (.scalar "foo"), .undefined⟩ (by decide)).1 (by decide)

/-! ## Claim C7 -/

/-- C7: a type assignment looks the right-hand type name up in the
context's type registry; on a miss it falls back to the `generic`
constructor (a lookup miss is never an error), on a hit it uses the
registered constructor, and in both cases the freshly instantiated value's
`_meta.type` tag is the originally requested name, stored at the assignee
slot with a null `ret`. -/
theorem c7_type_lookup_fallback_and_tagging
    (F : String → Env → Binding → Binding) (fuel : Nat) (h : Heap) (env : Env)
    (x name : String) (g tmpl : List (String × Binding)) :
    (typesGet env.ctx name = none → typesGet env.ctx "generic" = some g →
       interpretAst F fuel (.type_assignment (.assignee (.scalar (.identifier x)))
           (.identifier name)) h env
         = .ok ((instantiateType h g name).1, .env ⟨ctxSet env.ctx x (.addr h.next), .null⟩)
       ∧ ((instantiateType h g name).1).get h.next = some (.obj (some name) g))
    ∧ (typesGet env.ctx name = some tmpl →
       interpretAst F fuel (.type_assignment (.assignee (.scalar (.identifier x)))
           (.identifier name)) h env
         = .ok ((instantiateType h tmpl name).1, .env ⟨ctxSet env.ctx x (.addr h.next), .null⟩)
       ∧ ((instantiateType h tmpl name).1).get h.next = some (.obj (some name) tmpl)) := by
  constructor
  · intro hmiss hgen
    constructor
    · simp only [interpretAst, Bind.bind, Except.bind, hmiss, hgen, Option.orElse,
        instantiateType, assign, nreturn]
      simp [Heap.alloc]
    · simp [instantiateType, Heap.alloc, Heap.set, Heap.get, alget, alset]
  · intro hreg
    constructor
    · simp only [interpretAst, Bind.bind, Except.bind, hreg, Option.orElse,
        instantiateType, assign, nreturn]
      simp [Heap.alloc]
    · simp [instantiateType, Heap.alloc, Heap.set, Heap.get, alget, alset]

/-- Witness for C7: the unregistered name `Widget` with only `generic`
registered yields a fresh object tagged `Widget`. -/
theorem c7_witness :
    interpretAst F0 3 (.type_assignment (.assignee (.scalar (.identifier "w")))
        (.identifier "Widget")) hE ⟨⟨[], [("generic", [])]⟩, .null⟩
      = .ok ((instantiateType hE [] "Widget").1,
          .env ⟨⟨[("w", .addr 0)], [("generic", [])]⟩, .null⟩)
    ∧ ((instantiateType hE [] "Widget").1).get 0 = some (.obj (some "Widget") []) :=
  (c7_type_lookup_fallback_and_tagging F0 3 hE ⟨⟨[], [("generic", [])]⟩, .null⟩
    "w" "Widget" [] []).1 (by decide) (by decide)

/-! ## Claim C9 -/

/-- C9 counterexample: invoking a callable that returns JS `undefined`
produces a statement `ret` of `null`, not `undefined` — `nreturn` replaces
an undefined return value — so the returned value does not become the
statement's `ret` in the undefined case. -/
theorem c9_counterexample :
    interpretAst F0 3 (.invocation (.identifier "f") (.value (.literal (.integer 1)))) hE
        (envOf [("f", .fnname "f")])
      = .ok (hE, .env ⟨⟨[("f", .fnname "f")], []⟩, .null⟩)
    ∧ F0 "f" (envOf [("f", .fnname "f")]) (.int 1) = .undefined
    ∧ Binding.null ≠ Binding.undefined :=
  ⟨by decide, rfl, by decide⟩

/-- C9 (amended): an invocation evaluates its argument node to a value
without force-resolution, invokes the resolved callable with the
environment and that argument value, and returns the caller's context
with `ret` exactly the value the callable returned — except that a
returned `undefined` is replaced by `null`. -/
theorem c9_invocation_result_amended
    (F : String → Env → Binding → Binding) (fuel : Nat) (calleeNode argNode : Ast)
    (h h1 h2 h3 : Heap) (env : Env) (name f : String) (res : IRes)
    (hc : interpretAst F fuel calleeNode h env = .ok (h1, .val (.str name)))
    (hr : resolveB fuel h1 env.ctx (.ref (.scalar name)) = some (h2, .fnname f))
    (ha : interpretAst F fuel argNode h2 env = .ok (h3, res)) :
    interpretAst F fuel (.invocation calleeNode argNode) h env
      = .ok (h3, .env ⟨env.ctx,
          if F f env (iresVal res) = .undefined then .null else F f env (iresVal res)⟩) := by
  simp only [interpretAst, hc, hr, ha, Bind.bind, Except.bind, nreturn]
  by_cases hfv : F f env (iresVal res) = .undefined <;> simp [hfv]

/-- Witness for C9 (amended) at a concrete registry whose callable
returns `undefined`. -/
theorem c9_witness :
    interpretAst F0 3 (.invocation (.identifier "g") (.value (.literal (.integer 2)))) hE
        (envOf [("g", .fnname "g")])
      = .ok (hE, .env ⟨⟨[("g", .fnname "g")], []⟩, .null⟩) :=
  c9_invocation_result_amended F0 3 (.identifier "g") (.value (.literal (.integer 2)))
    hE hE hE hE (envOf [("g", .fnname "g")]) "g" "g" (.eva ⟨none, .int 2⟩)
    (by decide) (by decide) (by decide)

/-! ## Claim C10 -/

/-- C10: in a list assignment whose operand evaluates to a result carrying
an addressable reference, the item handed to the named list operation is
the reference wrapper to that referent — never the operand's materialized
value — so list elements alias context slots; and resolving such a stored
reference is exactly a context lookup performed at read time (the alias is
only replaced by a concrete value when `resolve` copies the list). -/
theorem c10_list_item_stored_as_reference
    (F : String → Env → Binding → Binding) (fuel : Nat) (h h2 : Heap) (env : Env)
    (tgt op : String) (itemNode : Ast) (a : Nat) (items2 items3 : List Binding)
    (res : IRes) (rn : RefName)
    (hT : ctxGet env.ctx tgt = .addr a)
    (hItem : interpretAst F fuel itemNode h env = .ok (h2, res))
    (hRef : iresRef res = some rn)
    (hL2 : h2.get a = some (.list items2))
    (hOp : listOp op items2 (.ref rn) = some items3) :
    interpretAst F fuel (.list_assignment op itemNode (.assignee (.scalar (.identifier tgt))))
        h env
      = .ok (h2.set a (.list items3), .env ⟨ctxSet env.ctx tgt (.addr a), .null⟩)
    ∧ (∀ (h' : Heap) (f : Nat) (cx : Ctx),
        resolveB (f + 1) h' cx (.ref rn) = resolveB f h' cx (ctxGet cx (refLookupKey rn))) := by
  constructor
  · simp only [interpretAst, evaluateValue, Bind.bind, Except.bind, hT, hItem, hRef,
      hL2, hOp, assign, nreturn]
    simp
  · intro h' f cx
    exact resolveB_ref_step f h' cx rn

/-- Witness for C10: `add x to mylist` appends the wrapper `{ref: "x"}`,
not the value `9` bound to `x`. -/
theorem c10_witness :
    interpretAst F0 3 (.list_assignment "add" (.value (.var (.scalar (.identifier "x"))))
        (.assignee (.scalar (.identifier "mylist"))))
        ⟨[(0, .list [.int 1])], 1⟩ (envOf [("mylist", .addr 0), ("x", .int 9)])
      = .ok ((Heap.set ⟨[(0, .list [.int 1])], 1⟩ 0 (.list [.int 1, .ref (.scalar "x")])),
          .env ⟨⟨[("mylist", .addr 0), ("x", .int 9)], []⟩, .null⟩) :=
  (c10_list_item_stored_as_reference F0 3 ⟨[(0, .list [.int 1])], 1⟩
    ⟨[(0, .list [.int 1])], 1⟩ (envOf [("mylist", .addr 0), ("x", .int 9)])
    "mylist" "add" (.value (.var (.scalar (.identifier "x")))) 0
    [.int 1] [.int 1, .ref (.scalar "x")] (.eva ⟨some (.scalar "x"), .int 9⟩)
    (.scalar "x") (by decide) (by decide) (by decide) (by decide) (by decide)).1

theorem HFrame_refl (h : Heap) : HFrame h h :=
  ⟨Nat.le_refl _, fun _ _ hl => hl, fun a m attrs ho => ⟨m, attrs, ho⟩, fun _ _ hn => hn⟩

theorem HFrame_trans (h1 h2 h3 : Heap) (a : HFrame h1 h2) (b : HFrame h2 h3) :
    HFrame h1 h3 := by
  obtain ⟨an, al, ao, ab⟩ := a
  obtain ⟨bn, bl, bo, bb⟩ := b
  refine ⟨Nat.le_trans an bn, fun x l hl => bl x l (al x l hl), ?_, ?_⟩
  · intro x m attrs ho
    obtain ⟨m', attrs', ho'⟩ := ao x m attrs ho
    exact bo x m' attrs' ho'
  · intro x hx hn
    exact bb x (Nat.lt_of_lt_of_le hx an) (ab x hx hn)

theorem HFrame_set_obj (h : Heap) (a : Nat) (m m' : Option String)
    (attrs attrs' : List (String × Binding)) (ha : h.get a = some (.obj m attrs)) :
    HFrame h (h.set a (.obj m' attrs')) := by
  refine ⟨Nat.le_of_eq (Heap.set_next h a _).symm, ?_, ?_, ?_⟩
  · intro x l hl
    have hxa : a ≠ x := by
      intro he
      rw [he] at ha
      rw [ha] at hl
      exact HeapObj.noConfusion (Option.some.inj hl)
    rw [Heap.get_set_ne _ _ _ _ hxa]
    exact hl
  · intro x mx ax ho
    by_cases hxa : a = x
    · subst hxa
      exact ⟨m', attrs', Heap.get_set_self _ _ _ _ ha⟩
    · rw [Heap.get_set_ne _ _ _ _ hxa]
      exact ⟨mx, ax, ho⟩
  · intro x hx hn
    have hxa : a ≠ x := by
      intro he
      rw [he] at ha
      rw [ha] at hn
      exact Option.noConfusion hn
    rw [Heap.get_set_ne _ _ _ _ hxa]
    exact hn

theorem HFrame_alloc (h : Heap) (o : HeapObj) (hOk : heapOk h = true) :
    HFrame h (h.alloc o).1 := by
  refine ⟨by rw [Heap.alloc_next]; omega, ?_, ?_, ?_⟩
  · intro x l hl
    rw [Heap.get_alloc]
    have := (heapOk_get h x _ hOk hl).1
    rw [if_neg (by omega)]
    exact hl
  · intro x mx ax ho
    rw [Heap.get_alloc]
    have := (heapOk_get h x _ hOk ho).1
    rw [if_neg (by omega)]
    exact ⟨mx, ax, ho⟩
  · intro x hx hn
    rw [Heap.get_alloc, if_neg (by omega)]
    exact hn

/-- Resolution invariants: a successful `resolve` run (and its item and
attribute loops) evolves the heap within `HFrame`, preserves heap
well-formedness, and returns a binding whose address is allocated. -/
theorem resolveInv : ∀ fuel : Nat,
    (∀ h ctx b h' b', heapOk h = true → ctxOk h.next ctx = true → bBelow h.next b = true →
       resolveB fuel h ctx b = some (h', b') →
       HFrame h h' ∧ heapOk h' = true ∧ bBelow h'.next b' = true)
    ∧ (∀ h ctx items h' out, heapOk h = true → ctxOk h.next ctx = true →
       items.all (bBelow h.next) = true →
       resolveItems fuel h ctx items = some (h', out) →
       HFrame h h' ∧ heapOk h' = true ∧ out.all (bBelow h'.next) = true ∧
       out.length = items.length)
    ∧ (∀ h ctx a ks h', heapOk h = true → ctxOk h.next ctx = true →
       resolveAttrs fuel h ctx a ks = some h' →
       HFrame h h' ∧ heapOk h' = true) := by
  intro fuel
  induction fuel with
  | zero =>
    refine ⟨?_, ?_, ?_⟩
    · intro h ctx b h' b' _ _ _ hres
      simp [resolveB] at hres
    · intro h ctx items h' out _ _ _ hres
      simp [resolveItems] at hres
    · intro h ctx a ks h' _ _ hres
      simp [resolveAttrs] at hres
  | succ fuel ih =>
    obtain ⟨ihB, ihI, ihA⟩ := ih
    refine ⟨?_, ?_, ?_⟩
    · intro h ctx b h' b' hOk hCtx hb hres
      cases b with
      | int n =>
        simp only [resolveB, Option.some.injEq, Prod.mk.injEq] at hres
        obtain ⟨rfl, rfl⟩ := hres
        exact ⟨HFrame_refl h, hOk, rfl⟩
      | str s =>
        simp only [resolveB, Option.some.injEq, Prod.mk.injEq] at hres
        obtain ⟨rfl, rfl⟩ := hres
        exact ⟨HFrame_refl h, hOk, rfl⟩
      | null =>
        simp only [resolveB, Option.some.injEq, Prod.mk.injEq] at hres
        obtain ⟨rfl, rfl⟩ := hres
        exact ⟨HFrame_refl h, hOk, rfl⟩
      | undefined =>
        simp only [resolveB, Option.some.injEq, Prod.mk.injEq] at hres
        obtain ⟨rfl, rfl⟩ := hres
        exact ⟨HFrame_refl h, hOk, rfl⟩
      | fnname f =>
        simp only [resolveB, Option.some.injEq, Prod.mk.injEq] at hres
        obtain ⟨rfl, rfl⟩ := hres
        exact ⟨HFrame_refl h, hOk, rfl⟩
      | ref r =>
        simp only [resolveB] at hres
        exact ihB h ctx _ h' b' hOk hCtx (ctxGet_below _ _ _ hCtx) hres
      | addr a =>
        simp only [resolveB] at hres
        split at hres
        · rename_i items hga
          split at hres
          · exact absurd hres (by simp)
          · rename_i h2 out hri
            simp only [Option.some.injEq, Prod.mk.injEq] at hres
            obtain ⟨rfl, rfl⟩ := hres
            have hitems : items.all (bBelow h.next) = true := by
              have := (heapOk_get h a _ hOk hga).2
              simpa [objBelow] using this
            obtain ⟨hf, hOk2, hout, _⟩ := ihI h ctx items h2 out hOk hCtx hitems hri
            have hOkNew : heapOk (h2.alloc (.list out)).1 = true := by
              apply heapOk_alloc _ _ hOk2
              simp only [objBelow]
              refine List.all_eq_true.mpr ?_
              intro x hx
              exact bBelow_mono _ _ _ (by omega) (List.all_eq_true.mp hout x hx)
            refine ⟨HFrame_trans _ _ _ hf (HFrame_alloc _ _ hOk2), hOkNew, ?_⟩
            simp [bBelow, Heap.alloc_next, Heap.alloc_snd]
        · rename_i m attrs hga
          split at hres
          · exact absurd hres (by simp)
          · rename_i h2 hra
            simp only [Option.some.injEq, Prod.mk.injEq] at hres
            obtain ⟨rfl, rfl⟩ := hres
            obtain ⟨hf, hOk2⟩ := ihA h ctx a (attrs.map Prod.fst) h2 hOk hCtx hra
            refine ⟨hf, hOk2, ?_⟩
            simp only [bBelow, decide_eq_true_eq] at hb ⊢
            exact Nat.lt_of_lt_of_le hb hf.1
        · rename_i hga
          simp only [Option.some.injEq, Prod.mk.injEq] at hres
          obtain ⟨rfl, rfl⟩ := hres
          exact ⟨HFrame_refl h, hOk, hb⟩
    · intro h ctx items h' out hOk hCtx hall hres
      cases items with
      | nil =>
        simp only [resolveItems, Option.some.injEq, Prod.mk.injEq] at hres
        obtain ⟨rfl, rfl⟩ := hres
        exact ⟨HFrame_refl h, hOk, rfl, rfl⟩
      | cons b bs =>
        simp only [resolveItems] at hres
        split at hres
        · exact absurd hres (by simp)
        · rename_i h1 b1 hrb
          split at hres
          · exact absurd hres (by simp)
          · rename_i h2 bs1 hri
            simp only [Option.some.injEq, Prod.mk.injEq] at hres
            obtain ⟨rfl, rfl⟩ := hres
            simp only [List.all_cons, Bool.and_eq_true] at hall
            obtain ⟨hf1, hOk1, hb1⟩ := ihB h ctx b h1 b1 hOk hCtx hall.1 hrb
            have hbs : bs.all (bBelow h1.next) = true := by
              refine List.all_eq_true.mpr ?_
              intro x hx
              exact bBelow_mono _ _ _ hf1.1 (List.all_eq_true.mp hall.2 x hx)
            obtain ⟨hf2, hOk2, hout, hlen⟩ :=
              ihI h1 ctx bs h2 bs1 hOk1 (ctxOk_mono _ _ _ hf1.1 hCtx) hbs hri
            refine ⟨HFrame_trans _ _ _ hf1 hf2, hOk2, ?_, by simp [hlen]⟩
            simp only [List.all_cons, Bool.and_eq_true]
            exact ⟨bBelow_mono _ _ _ hf2.1 hb1, hout⟩
    · intro h ctx a ks h' hOk hCtx hres
      cases ks with
      | nil =>
        simp only [resolveAttrs, Option.some.injEq] at hres
        obtain rfl := hres
        exact ⟨HFrame_refl h, hOk⟩
      | cons k ks =>
        simp only [resolveAttrs] at hres
        split at hres
        · rename_i m attrs hga
          split at hres
          · exact absurd hres (by simp)
          · rename_i h1 v1 hrb
            split at hres
            · rename_i m1 attrs1 hg1
              have hbk : bBelow h.next (attrGet attrs k) = true := by
                have := (heapOk_get h a _ hOk hga).2
                exact attrGet_below _ _ _ (by simpa [objBelow] using this)
              obtain ⟨hf1, hOk1, hv1⟩ := ihB h ctx _ h1 v1 hOk hCtx hbk hrb
              have ha1 : a < h1.next := (heapOk_get h1 a _ hOk1 hg1).1
              have hattrs1 : attrs1.all (fun p => bBelow h1.next p.2) = true := by
                have := (heapOk_get h1 a _ hOk1 hg1).2
                simpa [objBelow] using this
              have hnew : objBelow h1.next (.obj m1 (attrSet attrs1 k v1)) = true := by
                simp only [objBelow, attrSet]
                exact all_alput _ _ _ _ hattrs1 hv1
              have hOkS : heapOk (h1.set a (.obj m1 (attrSet attrs1 k v1))) = true :=
                heapOk_set _ _ _ hOk1 ha1 hnew
              have hfS : HFrame h1 (h1.set a (.obj m1 (attrSet attrs1 k v1))) :=
                HFrame_set_obj _ _ _ _ _ _ hg1
              have hCtxS : ctxOk (h1.set a (.obj m1 (attrSet attrs1 k v1))).next ctx = true := by
                rw [Heap.set_next]
                exact ctxOk_mono _ _ _ hf1.1 hCtx
              obtain ⟨hf2, hOk2⟩ := ihA _ ctx a ks h' hOkS hCtxS hres
              exact ⟨HFrame_trans _ _ _ hf1 (HFrame_trans _ _ _ hfS hf2), hOk2⟩
            · exact absurd hres (by simp)
        · exact absurd hres (by simp)

/-- `eqUpTo` is monotone in its fuel. -/
theorem eqUpTo_succ : ∀ k : Nat,
    (∀ h b1 b2, eqUpTo k h b1 b2 = true → eqUpTo (k + 1) h b1 b2 = true)
    ∧ (∀ h l1 l2, eqUpToList k h l1 l2 = true → eqUpToList (k + 1) h l1 l2 = true) := by
  intro k
  induction k with
  | zero =>
    constructor
    · intro h b1 b2 he
      simp [eqUpTo] at he
    · intro h l1 l2 he
      simp [eqUpToList] at he
  | succ k ih =>
    constructor
    · intro h b1 b2 he
      simp only [eqUpTo] at he ⊢
      split at he
      · simp_all
      · rename_i hne
        rw [if_neg hne]
        split at he
        · rename_i a1 a2
          split at he
          · rename_i l1 l2 hg1 hg2
            exact ih.2 h l1 l2 he
          · exact absurd he (by simp)
        · exact absurd he (by simp)
    · intro h l1 l2 he
      cases l1 with
      | nil =>
        cases l2 with
        | nil => simp [eqUpToList]
        | cons y ys => simp [eqUpToList] at he
      | cons x xs =>
        cases l2 with
        | nil => simp [eqUpToList] at he
        | cons y ys =>
          simp only [eqUpToList, Bool.and_eq_true] at he ⊢
          exact ⟨ih.1 h x y he.1, ih.2 h xs ys he.2⟩

/-- `eqUpTo` is monotone in its fuel (general form). -/
theorem eqUpTo_mono (k k' : Nat) (h : Heap) (b1 b2 : Binding) (hk : k ≤ k')
    (he : eqUpTo k h b1 b2 = true) : eqUpTo k' h b1 b2 = true := by
  induction k' with
  | zero =>
    have : k = 0 := by omega
    subst this
    exact he
  | succ k' ihk =>
    rcases Nat.lt_or_ge k (k' + 1) with hlt | hge
    · exact (eqUpTo_succ k').1 h b1 b2 (ihk (by omega))
    · have : k = k' + 1 := by omega
      subst this
      exact he

/-- `eqUpToList` is monotone in its fuel (general form). -/
theorem eqUpToList_mono (k k' : Nat) (h : Heap) (l1 l2 : List Binding) (hk : k ≤ k')
    (he : eqUpToList k h l1 l2 = true) : eqUpToList k' h l1 l2 = true := by
  induction k' with
  | zero =>
    have : k = 0 := by omega
    subst this
    exact he
  | succ k' ihk =>
    rcases Nat.lt_or_ge k (k' + 1) with hlt | hge
    · exact (eqUpTo_succ k').2 h l1 l2 (ihk (by omega))
    · have : k = k' + 1 := by omega
      subst this
      exact he

/-- `eqUpTo` only inspects list cells, so it is stable under any heap
evolution that preserves every list cell. -/
theorem eqUpTo_frame : ∀ (k : Nat) (h h' : Heap),
    (∀ a l, h.get a = some (.list l) → h'.get a = some (.list l)) →
    (∀ b1 b2, eqUpTo k h b1 b2 = true → eqUpTo k h' b1 b2 = true)
    ∧ (∀ l1 l2, eqUpToList k h l1 l2 = true → eqUpToList k h' l1 l2 = true) := by
  intro k
  induction k with
  | zero =>
    intro h h' hl
    constructor
    · intro b1 b2 he
      simp [eqUpTo] at he
    · intro l1 l2 he
      simp [eqUpToList] at he
  | succ k ih =>
    intro h h' hl
    constructor
    · intro b1 b2 he
      simp only [eqUpTo] at he ⊢
      split at he
      · simp_all
      · rename_i hne
        rw [if_neg hne]
        split at he
        · rename_i a1 a2
          split at he
          · rename_i l1 l2 hg1 hg2
            rw [hl a1 l1 hg1, hl a2 l2 hg2]
            exact (ih h h' hl).2 l1 l2 he
          · exact absurd he (by simp)
        · exact absurd he (by simp)
    · intro l1 l2 he
      cases l1 with
      | nil =>
        cases l2 with
        | nil => simp [eqUpToList]
        | cons y ys => simp [eqUpToList] at he
      | cons x xs =>
        cases l2 with
        | nil => simp [eqUpToList] at he
        | cons y ys =>
          simp only [eqUpToList, Bool.and_eq_true] at he ⊢
          exact ⟨(ih h h' hl).1 x y he.1, (ih h h' hl).2 xs ys he.2⟩

/-- Two distinct addresses holding lists with pointwise equal-up-to-copy
items are themselves equal up to copy. -/
theorem eqUpTo_lists (k : Nat) (h : Heap) (a1 a2 : Nat) (l1 l2 : List Binding)
    (hne : a1 ≠ a2) (hg1 : h.get a1 = some (.list l1)) (hg2 : h.get a2 = some (.list l2))
    (he : eqUpToList k h l1 l2 = true) : eqUpTo (k + 1) h (.addr a1) (.addr a2) = true := by
  simp only [eqUpTo]
  rw [if_neg (by simp [hne])]
  simp only [hg1, hg2]
  exact he

/-- Double-resolution lemma: resolving the same binding a second time —
from any heap the first run's result heap may have evolved into — returns
a value equal up to list re-copying to the first result, evaluated in the
second run's final heap.  The item-loop version is proved simultaneously. -/
theorem resolveDE : ∀ fuel : Nat,
    (∀ f' h ctx b h1 b1 hB h2 b2,
       heapOk h = true → ctxOk h.next ctx = true → bBelow h.next b = true →
       resolveB fuel h ctx b = some (h1, b1) →
       HFrame h1 hB → heapOk hB = true →
       resolveB f' hB ctx b = some (h2, b2) →
       ∃ k, eqUpTo k h2 b1 b2 = true)
    ∧ (∀ f' h ctx items h1 out1 hB h2 out2,
       heapOk h = true → ctxOk h.next ctx = true → items.all (bBelow h.next) = true →
       resolveItems fuel h ctx items = some (h1, out1) →
       HFrame h1 hB → heapOk hB = true →
       resolveItems f' hB ctx items = some (h2, out2) →
       ∃ k, eqUpToList k h2 out1 out2 = true) := by
  intro fuel
  induction fuel with
  | zero =>
    constructor
    · intro f' h ctx b h1 b1 hB h2 b2 _ _ _ hres1 _ _ _
      simp [resolveB] at hres1
    · intro f' h ctx items h1 out1 hB h2 out2 _ _ _ hres1 _ _ _
      simp [resolveItems] at hres1
  | succ fuel ih =>
    obtain ⟨ihB, ihI⟩ := ih
    constructor
    · intro f' h ctx b h1 b1 hB h2 b2 hOk hCtx hb hres1 hFr hOkB hres2
      cases f' with
      | zero => simp [resolveB] at hres2
      | succ f' =>
        cases b with
        | int n =>
          simp only [resolveB, Option.some.injEq, Prod.mk.injEq] at hres1 hres2
          obtain ⟨rfl, rfl⟩ := hres1
          obtain ⟨rfl, rfl⟩ := hres2
          exact ⟨1, by simp [eqUpTo]⟩
        | str s =>
          simp only [resolveB, Option.some.injEq, Prod.mk.injEq] at hres1 hres2
          obtain ⟨rfl, rfl⟩ := hres1
          obtain ⟨rfl, rfl⟩ := hres2
          exact ⟨1, by simp [eqUpTo]⟩
        | null =>
          simp only [resolveB, Option.some.injEq, Prod.mk.injEq] at hres1 hres2
          obtain ⟨rfl, rfl⟩ := hres1
          obtain ⟨rfl, rfl⟩ := hres2
          exact ⟨1, by simp [eqUpTo]⟩
        | undefined =>
          simp only [resolveB, Option.some.injEq, Prod.mk.injEq] at hres1 hres2
          obtain ⟨rfl, rfl⟩ := hres1
          obtain ⟨rfl, rfl⟩ := hres2
          exact ⟨1, by simp [eqUpTo]⟩
        | fnname f =>
          simp only [resolveB, Option.some.injEq, Prod.mk.injEq] at hres1 hres2
          obtain ⟨rfl, rfl⟩ := hres1
          obtain ⟨rfl, rfl⟩ := hres2
          exact ⟨1, by simp [eqUpTo]⟩
        | ref r =>
          simp only [resolveB] at hres1 hres2
          exact ihB f' h ctx _ h1 b1 hB h2 b2 hOk hCtx (ctxGet_below _ _ _ hCtx)
            hres1 hFr hOkB hres2
        | addr a =>
          simp only [resolveB] at hres1 hres2
          split at hres1
          · -- first run: a holds a list
            rename_i items hga
            split at hres1
            · exact absurd hres1 (by simp)
            · rename_i hm1 out1x hri1
              simp only [Option.some.injEq, Prod.mk.injEq] at hres1
              obtain ⟨rfl, rfl⟩ := hres1
              have hitems : items.all (bBelow h.next) = true := by
                have := (heapOk_get h a _ hOk hga).2
                simpa [objBelow] using this
              obtain ⟨hf1, hOkM1, hout1, _⟩ :=
                (resolveInv fuel).2.1 h ctx items hm1 out1x hOk hCtx hitems hri1
              have hFrAlloc : HFrame hm1 (hm1.alloc (.list out1x)).1 :=
                HFrame_alloc _ _ hOkM1
              have hFrM1B : HFrame hm1 hB := HFrame_trans _ _ _ hFrAlloc hFr
              have hHB : HFrame h hB := HFrame_trans _ _ _ hf1 hFrM1B
              have hgaB : hB.get a = some (.list items) := hHB.2.1 a items hga
              split at hres2
              · rename_i items2 hgaB2
                rw [hgaB] at hgaB2
                have hieq : items2 = items :=
                  (HeapObj.list.inj (Option.some.inj hgaB2)).symm
                rw [hieq] at hres2
                split at hres2
                · exact absurd hres2 (by simp)
                · rename_i hm2 out2x hri2
                  simp only [Option.some.injEq, Prod.mk.injEq] at hres2
                  obtain ⟨rfl, rfl⟩ := hres2
                  have hitemsB : items.all (bBelow hB.next) = true := by
                    have := (heapOk_get hB a _ hOkB hgaB).2
                    simpa [objBelow] using this
                  obtain ⟨hf2, hOkM2, hout2, _⟩ :=
                    (resolveInv f').2.1 hB ctx items hm2 out2x hOkB
                      (ctxOk_mono _ _ _ hHB.1 hCtx) hitemsB hri2
                  obtain ⟨k, hk⟩ := ihI f' h ctx items hm1 out1x hB hm2 out2x hOk hCtx
                    hitems hri1 hFrM1B hOkB hri2
                  -- the first copy survives into the final heap
                  have hA1get : ((hm1.alloc (.list out1x)).1).get hm1.next
                      = some (.list out1x) := by
                    rw [Heap.get_alloc, if_pos rfl]
                  have hA1B : hB.get hm1.next = some (.list out1x) :=
                    hFr.2.1 _ _ hA1get
                  have hA1M2 : hm2.get hm1.next = some (.list out1x) :=
                    hf2.2.1 _ _ hA1B
                  have hA1lt : hm1.next < hm2.next := (heapOk_get hm2 _ _ hOkM2 hA1M2).1
                  have hget1 : ((hm2.alloc (.list out2x)).1).get hm1.next
                      = some (.list out1x) := by
                    rw [Heap.get_alloc, if_neg (by omega)]
                    exact hA1M2
                  have hget2 : ((hm2.alloc (.list out2x)).1).get hm2.next
                      = some (.list out2x) := by
                    rw [Heap.get_alloc, if_pos rfl]
                  have hlp : ∀ x l, hm2.get x = some (.list l) →
                      ((hm2.alloc (.list out2x)).1).get x = some (.list l) := by
                    intro x l hx
                    have := (heapOk_get hm2 x _ hOkM2 hx).1
                    rw [Heap.get_alloc, if_neg (by omega)]
                    exact hx
                  have hk2 : eqUpToList k ((hm2.alloc (.list out2x)).1) out1x out2x =
                      true := (eqUpTo_frame k hm2 _ hlp).2 _ _ hk
                  exact ⟨k + 1, eqUpTo_lists k _ hm1.next hm2.next out1x out2x
                    (by omega) hget1 hget2 hk2⟩
              · rename_i m2 attrs2 hgaB2
                rw [hgaB] at hgaB2
                exact absurd (Option.some.inj hgaB2) (by simp)
              · rename_i hgaB2
                rw [hgaB] at hgaB2
                exact absurd hgaB2 (by simp)
          · -- first run: a holds an object
            rename_i m attrs hga
            split at hres1
            · exact absurd hres1 (by simp)
            · rename_i hA1 hra1
              simp only [Option.some.injEq, Prod.mk.injEq] at hres1
              obtain ⟨rfl, rfl⟩ := hres1
              obtain ⟨hf1, _⟩ := (resolveInv fuel).2.2 h ctx a _ hA1 hOk hCtx hra1
              have hHB : HFrame h hB := HFrame_trans _ _ _ hf1 hFr
              obtain ⟨m', attrs', hgaB⟩ := hHB.2.2.1 a m attrs hga
              split at hres2
              · rename_i items2 hgaB2
                rw [hgaB] at hgaB2
                exact absurd (Option.some.inj hgaB2) (by simp)
              · rename_i m2 attrs2 hgaB2
                split at hres2
                · exact absurd hres2 (by simp)
                · rename_i hA2 hra2
                  simp only [Option.some.injEq, Prod.mk.injEq] at hres2
                  obtain ⟨rfl, rfl⟩ := hres2
                  exact ⟨1, by simp [eqUpTo]⟩
              · rename_i hgaB2
                rw [hgaB] at hgaB2
                exact absurd hgaB2 (by simp)
          · -- first run: a is dangling (cannot arise from JS)
            rename_i hga
            simp only [Option.some.injEq, Prod.mk.injEq] at hres1
            obtain ⟨rfl, rfl⟩ := hres1
            have ha : a < h.next := by simpa [bBelow] using hb
            have hgaB : hB.get a = none := hFr.2.2.2 a ha hga
            split at hres2
            · rename_i items2 hgaB2
              rw [hgaB] at hgaB2
              exact absurd hgaB2 (by simp)
            · rename_i m2 attrs2 hgaB2
              rw [hgaB] at hgaB2
              exact absurd hgaB2 (by simp)
            · simp only [Option.some.injEq, Prod.mk.injEq] at hres2
              obtain ⟨rfl, rfl⟩ := hres2
              exact ⟨1, by simp [eqUpTo]⟩
    · intro f' h ctx items h1 out1 hB h2 out2 hOk hCtx hall hres1 hFr hOkB hres2
      cases f' with
      | zero => simp [resolveItems] at hres2
      | succ f' =>
        cases items with
        | nil =>
          simp only [resolveItems, Option.some.injEq, Prod.mk.injEq] at hres1 hres2
          obtain ⟨rfl, rfl⟩ := hres1
          obtain ⟨rfl, rfl⟩ := hres2
          exact ⟨1, by simp [eqUpToList]⟩
        | cons b bs =>
          simp only [resolveItems] at hres1 hres2
          split at hres1
          · exact absurd hres1 (by simp)
          · rename_i hx o1 hrb1
            split at hres1
            · exact absurd hres1 (by simp)
            · rename_i h1' rest1 hri1
              simp only [Option.some.injEq, Prod.mk.injEq] at hres1
              obtain ⟨rfl, rfl⟩ := hres1
              split at hres2
              · exact absurd hres2 (by simp)
              · rename_i hy o2 hrb2
                split at hres2
                · exact absurd hres2 (by simp)
                · rename_i h2' rest2 hri2
                  simp only [Option.some.injEq, Prod.mk.injEq] at hres2
                  obtain ⟨rfl, rfl⟩ := hres2
                  simp only [List.all_cons, Bool.and_eq_true] at hall
                  obtain ⟨hfx, hOkX, _⟩ :=
                    (resolveInv fuel).1 h ctx b hx o1 hOk hCtx hall.1 hrb1
                  have hbsx : bs.all (bBelow hx.next) = true := by
                    refine List.all_eq_true.mpr ?_
                    intro z hz
                    exact bBelow_mono _ _ _ hfx.1 (List.all_eq_true.mp hall.2 z hz)
                  obtain ⟨hfTail1, hOk1', _, _⟩ :=
                    (resolveInv fuel).2.1 hx ctx bs h1' rest1 hOkX
                      (ctxOk_mono _ _ _ hfx.1 hCtx) hbsx hri1
                  have hHB : HFrame h hB :=
                    HFrame_trans _ _ _ hfx (HFrame_trans _ _ _ hfTail1 hFr)
                  have hbB : bBelow hB.next b = true :=
                    bBelow_mono _ _ _ hHB.1 hall.1
                  obtain ⟨hfy, hOkY, _⟩ :=
                    (resolveInv f').1 hB ctx b hy o2 hOkB
                      (ctxOk_mono _ _ _ hHB.1 hCtx) hbB hrb2
                  have hbsy : bs.all (bBelow hy.next) = true := by
                    refine List.all_eq_true.mpr ?_
                    intro z hz
                    have hz1 := List.all_eq_true.mp hall.2 z hz
                    exact bBelow_mono _ _ _ (Nat.le_trans hHB.1 hfy.1) hz1
                  obtain ⟨hfTail2, _, _, _⟩ :=
                    (resolveInv f').2.1 hy ctx bs h2' rest2 hOkY
                      (ctxOk_mono _ _ _ (Nat.le_trans hHB.1 hfy.1) hCtx) hbsy hri2
                  obtain ⟨k1, hk1⟩ := ihB f' h ctx b hx o1 hB hy o2 hOk hCtx hall.1
                    hrb1 (HFrame_trans _ _ _ hfTail1 hFr) hOkB hrb2
                  have hk1' : eqUpTo k1 h2' o1 o2 = true :=
                    (eqUpTo_frame k1 hy h2' hfTail2.2.1).1 _ _ hk1
                  obtain ⟨k2, hk2⟩ := ihI f' hx ctx bs h1' rest1 hy h2' rest2 hOkX
                    (ctxOk_mono _ _ _ hfx.1 hCtx) hbsx hri1
                    (HFrame_trans _ _ _ hFr hfy) hOkY hri2
                  refine ⟨max k1 k2 + 1, ?_⟩
                  simp only [eqUpToList, Bool.and_eq_true]
                  exact ⟨eqUpTo_mono k1 _ _ _ _ (Nat.le_max_left _ _) hk1',
                    eqUpToList_mono k2 _ _ _ _ (Nat.le_max_right _ _) hk2⟩

/-- C8: on a well-formed heap and context, `resolve` on a list value
returns a newly constructed list — an address that did not exist before,
distinct from the original — whose stored items are the resolved forms of
the original items in order (the item-loop output, of the same length);
the original list cell is left unmodified by both a first and a second
resolution; and resolving the same list twice yields two lists in distinct
storage whose contents are equal up to list re-copying (hence structurally
equal), both present in the final heap. -/
theorem c8_resolve_copies_lists
    (ctx : Ctx) (h h1 h2 : Heap) (a : Nat) (items : List Binding) (f f' : Nat)
    (b1 b2 : Binding)
    (hOk : heapOk h = true) (hCtx : ctxOk h.next ctx = true)
    (hA : h.get a = some (.list items))
    (h1st : resolveB f h ctx (.addr a) = some (h1, b1))
    (h2nd : resolveB f' h1 ctx (.addr a) = some (h2, b2)) :
    ∃ (a1 a2 : Nat) (out1 out2 : List Binding),
      b1 = .addr a1 ∧ b2 = .addr a2 ∧
      h.get a1 = none ∧ a1 ≠ a ∧ a2 ≠ a ∧ a2 ≠ a1 ∧
      (∃ f0 hm, f = f0 + 1 ∧ resolveItems f0 h ctx items = some (hm, out1) ∧
        out1.length = items.length) ∧
      (∃ f0 hm, f' = f0 + 1 ∧ resolveItems f0 h1 ctx items = some (hm, out2) ∧
        out2.length = items.length) ∧
      h1.get a1 = some (.list out1) ∧ h2.get a1 = some (.list out1) ∧
      h2.get a2 = some (.list out2) ∧
      h1.get a = some (.list items) ∧ h2.get a = some (.list items) ∧
      (∃ k, eqUpTo k h2 b1 b2 = true) := by
  have hblw : bBelow h.next (.addr a) = true := by
    simp [bBelow]
    exact (heapOk_get h a _ hOk hA).1
  obtain ⟨hfB1, hOkH1, hb1blw⟩ := (resolveInv f).1 h ctx _ h1 b1 hOk hCtx hblw h1st
  have halt : a < h.next := (heapOk_get h a _ hOk hA).1
  -- destructure the first run
  cases f with
  | zero => simp [resolveB] at h1st
  | succ f0 =>
    simp only [resolveB] at h1st
    split at h1st
    · rename_i items0 hga0
      rw [hA] at hga0
      have hieq : items0 = items := (HeapObj.list.inj (Option.some.inj hga0)).symm
      rw [hieq] at h1st
      split at h1st
      · exact absurd h1st (by simp)
      · rename_i hm1 out1x hri1
        simp only [Option.some.injEq, Prod.mk.injEq] at h1st
        obtain ⟨rfl, rfl⟩ := h1st
        have hitems : items.all (bBelow h.next) = true := by
          have := (heapOk_get h a _ hOk hA).2
          simpa [objBelow] using this
        obtain ⟨hfM1, hOkM1, hout1, hlen1⟩ :=
          (resolveInv f0).2.1 h ctx items hm1 out1x hOk hCtx hitems hri1
        have hM1a : hm1.get a = some (.list items) := hfM1.2.1 a items hA
        have ha1ge : h.next ≤ hm1.next := hfM1.1
        have h1geta1 : ((hm1.alloc (.list out1x)).1).get hm1.next
            = some (.list out1x) := by
          rw [Heap.get_alloc, if_pos rfl]
        have h1geta : ((hm1.alloc (.list out1x)).1).get a = some (.list items) := by
          rw [Heap.get_alloc, if_neg (by omega)]
          exact hM1a
        -- destructure the second run
        obtain ⟨hfB2, hOkH2, _⟩ :=
          (resolveInv f').1 ((hm1.alloc (.list out1x)).1) ctx (.addr a) h2 b2 hOkH1
            (ctxOk_mono _ _ _ hfB1.1 hCtx)
            (by simp [bBelow, Heap.alloc_next]; omega) h2nd
        cases f' with
        | zero => simp [resolveB] at h2nd
        | succ f0' =>
          simp only [resolveB] at h2nd
          split at h2nd
          · rename_i items1 hga1
            rw [h1geta] at hga1
            have hieq1 : items1 = items := (HeapObj.list.inj (Option.some.inj hga1)).symm
            rw [hieq1] at h2nd
            split at h2nd
            · exact absurd h2nd (by simp)
            · rename_i hm2 out2x hri2
              simp only [Option.some.injEq, Prod.mk.injEq] at h2nd
              obtain ⟨rfl, rfl⟩ := h2nd
              have hitems1 : items.all (bBelow ((hm1.alloc (.list out1x)).1).next)
                  = true := by
                have := (heapOk_get _ a _ hOkH1 h1geta).2
                simpa [objBelow] using this
              obtain ⟨hfM2, hOkM2, hout2, hlen2⟩ :=
                (resolveInv f0').2.1 _ ctx items hm2 out2x hOkH1
                  (ctxOk_mono _ _ _ hfB1.1 hCtx) hitems1 hri2
              have hM2a1 : hm2.get hm1.next = some (.list out1x) :=
                hfM2.2.1 _ _ h1geta1
              have hM2a : hm2.get a = some (.list items) := hfM2.2.1 _ _ h1geta
              have ha1lt : hm1.next < hm2.next := (heapOk_get hm2 _ _ hOkM2 hM2a1).1
              have h2geta1 : ((hm2.alloc (.list out2x)).1).get hm1.next
                  = some (.list out1x) := by
                rw [Heap.get_alloc, if_neg (by omega)]
                exact hM2a1
              have h2geta2 : ((hm2.alloc (.list out2x)).1).get hm2.next
                  = some (.list out2x) := by
                rw [Heap.get_alloc, if_pos rfl]
              have h2geta : ((hm2.alloc (.list out2x)).1).get a = some (.list items) := by
                have : a < hm2.next := by
                  have := hfM2.1
                  simp only [Heap.alloc_next] at this
                  omega
                rw [Heap.get_alloc, if_neg (by omega)]
                exact hM2a
              obtain ⟨k, hk⟩ := (resolveDE (f0 + 1)).1 (f0' + 1) h ctx (.addr a)
                ((hm1.alloc (.list out1x)).1) (.addr (hm1.alloc (.list out1x)).2)
                ((hm1.alloc (.list out1x)).1) ((hm2.alloc (.list out2x)).1)
                (.addr (hm2.alloc (.list out2x)).2)
                hOk hCtx hblw
                (by simp only [resolveB, hA, hri1])
                (HFrame_refl _) hOkH1
                (by simp only [resolveB, h1geta, hri2])
              refine ⟨hm1.next, hm2.next, out1x, out2x, rfl, rfl, ?_, ?_, ?_, ?_,
                ⟨f0, hm1, rfl, hri1, hlen1⟩, ⟨f0', hm2, rfl, hri2, hlen2⟩,
                h1geta1, h2geta1, h2geta2, h1geta, h2geta, ⟨k, hk⟩⟩
              · exact heapOk_get_none h hm1.next hOk ha1ge
              · omega
              · have := hfB1.1
                simp only [Heap.alloc_next] at this ⊢
                have h2next : hm1.next < hm2.next := ha1lt
                omega
              · omega
          · rename_i m2 attrs2 hga1
            rw [h1geta] at hga1
            exact absurd (Option.some.inj hga1) (by simp)
          · rename_i hga1
            rw [h1geta] at hga1
            exact absurd hga1 (by simp)
    · rename_i m0 attrs0 hga0
      rw [hA] at hga0
      exact absurd (Option.some.inj hga0) (by simp)
    · rename_i hga0
      rw [hA] at hga0
      exact absurd hga0 (by simp)

/-- Witness for C8 at the concrete list `[7, {ref: "x"}]` stored at
address 0, resolved twice with `x` bound to `2`. -/
theorem c8_witness :
    ∃ (a1 a2 : Nat) (out1 out2 : List Binding),
      (Binding.addr 1) = .addr a1 ∧ (Binding.addr 2) = .addr a2 ∧
      h8.get a1 = none ∧ a1 ≠ 0 ∧ a2 ≠ 0 ∧ a2 ≠ a1 ∧
      (∃ f0 hm, 5 = f0 + 1 ∧
        resolveItems f0 h8 cx8 [.int 7, .ref (.scalar "x")] = some (hm, out1) ∧
        out1.length = ([Binding.int 7, Binding.ref (.scalar "x")]).length) ∧
      (∃ f0 hm, 5 = f0 + 1 ∧
        resolveItems f0 (⟨[(1, .list [.int 7, .int 2]),
            (0, .list [.int 7, .ref (.scalar "x")])], 2⟩ : Heap) cx8
            [.int 7, .ref (.scalar "x")] = some (hm, out2) ∧
        out2.length = ([Binding.int 7, Binding.ref (.scalar "x")]).length) ∧
      (⟨[(1, .list [.int 7, .int 2]), (0, .list [.int 7, .ref (.scalar "x")])], 2⟩
          : Heap).get a1 = some (.list out1) ∧
      (⟨[(2, .list [.int 7, .int 2]), (1, .list [.int 7, .int 2]),
          (0, .list [.int 7, .ref (.scalar "x")])], 3⟩ : Heap).get a1
        = some (.list out1) ∧
      (⟨[(2, .list [.int 7, .int 2]), (1, .list [.int 7, .int 2]),
          (0, .list [.int 7, .ref (.scalar "x")])], 3⟩ : Heap).get a2
        = some (.list out2) ∧
      (⟨[(1, .list [.int 7, .int 2]), (0, .list [.int 7, .ref (.scalar "x")])], 2⟩
          : Heap).get 0 = some (.list [.int 7, .ref (.scalar "x")]) ∧
      (⟨[(2, .list [.int 7, .int 2]), (1, .list [.int 7, .int 2]),
          (0, .list [.int 7, .ref (.scalar "x")])], 3⟩ : Heap).get 0
        = some (.list [.int 7, .ref (.scalar "x")]) ∧
      (∃ k, eqUpTo k (⟨[(2, .list [.int 7, .int 2]), (1, .list [.int 7, .int 2]),
          (0, .list [.int 7, .ref (.scalar "x")])], 3⟩ : Heap)
          (.addr 1) (.addr 2) = true) :=
  c8_resolve_copies_lists cx8 h8
    ⟨[(1, .list [.int 7, .int 2]), (0, .list [.int 7, .ref (.scalar "x")])], 2⟩
    ⟨[(2, .list [.int 7, .int 2]), (1, .list [.int 7, .int 2]),
      (0, .list [.int 7, .ref (.scalar "x")])], 3⟩
    0 [.int 7, .ref (.scalar "x")] 5 5 (.addr 1) (.addr 2)
    (by decide) (by decide) (by decide) (by decide) (by decide)
